import Mathlib

/-!
Verification development for the XLPP codec (`src/Arduino/src/xlpp.cpp`).

The byte buffer, cursor and every operation the claims touch are embedded
shallowly: the `uint8_t` buffer becomes a total function `Nat → Nat` whose
written cells are kept below 256 by the same `& 0xff` masks the source uses,
the shared cursor `o` is a `Nat`, machine integers are `Nat`/`Int` with
explicit `% 2 ^ w` at the points where C truncates, and C `float` values are
modelled exactly over `ℚ` (every concrete value used below is exactly
representable in `float`, and the arithmetic applied to it is exact there).
-/

/-- State of one XLPP codec instance (xlpp.cpp lines 5–9): `size` is the
capacity passed to the constructor, `buf` the malloc'd byte region, `o` the
single cursor shared by the write and read operations. -/
structure XLPP where
  size : Nat
  buf : Nat → Nat
  o : Nat

/-- Constructor `XLPP::XLPP(uint8_t size)` (xlpp.cpp lines 5–9): allocate
`size` bytes and set the cursor to 0.  `size` is a `uint8_t`, hence the
`% 256`; malloc contents are indeterminate and modelled as zero bytes. -/
def XLPP.construct (size : Nat) : XLPP :=
  ⟨size % 256, fun _ => 0, 0⟩

/-- Source macro `_WRITE(v)`: `buf[o++] = (v)&0xff;` (xlpp.cpp line 21). -/
def wr (s : XLPP) (v : Nat) : XLPP :=
  ⟨s.size, fun i => if i = s.o then v % 256 else s.buf i, s.o + 1⟩

/-- Source macro `WRITE_uint8_t` (xlpp.cpp line 22). -/
def WRITE_uint8_t (s : XLPP) (v : Nat) : XLPP := wr s v

/-- Source macro `WRITE_uint16_t` (xlpp.cpp lines 23–25): high byte first. -/
def WRITE_uint16_t (s : XLPP) (v : Nat) : XLPP := wr (wr s (v >>> 8)) v

/-- Source macro `WRITE_uint24_t` (xlpp.cpp lines 26–29). -/
def WRITE_uint24_t (s : XLPP) (v : Nat) : XLPP :=
  wr (wr (wr s (v >>> 16)) (v >>> 8)) v

/-- Source macro `WRITE_uint32_t` (xlpp.cpp lines 30–34). -/
def WRITE_uint32_t (s : XLPP) (v : Nat) : XLPP :=
  wr (wr (wr (wr s (v >>> 24)) (v >>> 16)) (v >>> 8)) v

/-- Source macro `WRITE_int16_t(v) = WRITE_uint16_t(uint16_t(v))`
(xlpp.cpp line 37); the `uint16_t` cast is the two's-complement image. -/
def WRITE_int16_t (s : XLPP) (v : Int) : XLPP :=
  WRITE_uint16_t s ((v % (2 ^ 16 : Int)).toNat)

/-- Source macro `READ_uint8_t` = `_READ` = `buf[o++]`
(xlpp.cpp lines 41–42). -/
def READ_uint8_t (s : XLPP) : Nat × XLPP :=
  (s.buf s.o, ⟨s.size, s.buf, s.o + 1⟩)

/-- Source macro `READ_uint16_t` exactly as written
(xlpp.cpp line 43): `uint16_t(_READ) << 8 + uint16_t(_READ)`.
C precedence makes `+` bind tighter than `<<`, and (with C++17 sequencing)
the left `_READ` is evaluated first, so the expression computes
`buf[o] << (8 + buf[o+1])` while consuming two bytes; the promoted-to-int
result is truncated only by the caller's cast. -/
def READ_uint16_t (s : XLPP) : Nat × XLPP :=
  (s.buf s.o <<< (8 + s.buf (s.o + 1)), ⟨s.size, s.buf, s.o + 2⟩)

/-- Source macro `READ_uint24_t` exactly as written (xlpp.cpp line 44):
`uint24_t(_READ) << 16 + uint24_t(_READ) << 8 + uint24_t(_READ)`, which by
the same precedence parses as `(buf[o] << (16 + buf[o+1])) << (8 + buf[o+2])`. -/
def READ_uint24_t (s : XLPP) : Nat × XLPP :=
  ((s.buf s.o <<< (16 + s.buf (s.o + 1))) <<< (8 + s.buf (s.o + 2)),
    ⟨s.size, s.buf, s.o + 3⟩)

/-- Source macro `READ_uint32_t` exactly as written (xlpp.cpp line 45),
parsing as `((buf[o] << (24+buf[o+1])) << (16+buf[o+2])) << (8+buf[o+3])`. -/
def READ_uint32_t (s : XLPP) : Nat × XLPP :=
  (((s.buf s.o <<< (24 + s.buf (s.o + 1))) <<< (16 + s.buf (s.o + 2))) <<<
      (8 + s.buf (s.o + 3)),
    ⟨s.size, s.buf, s.o + 4⟩)

/-- Two's-complement reading of a value as an `int16_t` (cast of the
promoted int down to `int16_t`): reduce mod 2^16, then re-centre. -/
def toInt16 (n : Nat) : Int :=
  if n % 2 ^ 16 < 2 ^ 15 then (n % 2 ^ 16 : Int) else (n % 2 ^ 16 : Int) - 2 ^ 16

/-- Source macro `READ_int16_t = int16_t(READ_uint16_t)` (xlpp.cpp line 48). -/
def READ_int16_t (s : XLPP) : Int × XLPP :=
  (toInt16 (READ_uint16_t s).1, (READ_uint16_t s).2)

/-- The big-endian read contract of spec §4.2 for width 2, stated from the
spec's words ("reconstructs the integer by concatenating bytes
most-significant-first"), for comparison with the source's `READ_uint16_t`. -/
def specRead_uint16 (s : XLPP) : Nat × XLPP :=
  (s.buf s.o * 256 + s.buf (s.o + 1), ⟨s.size, s.buf, s.o + 2⟩)

/-- Modelled from the spec: the tag constants live in `xlpp.h`, which is not
part of the sources given; per spec §3 they are distinct enumerated bytes
(the CayenneLPP family for the sensor kinds).  No claim below depends on the
particular values, only on the identities of the names and on the generic
tags being nonzero. -/
def LPP_DIGITAL_INPUT : Nat := 0

/-- Modelled from the spec: see `LPP_DIGITAL_INPUT`. -/
def LPP_TEMPERATURE : Nat := 103

/-- Modelled from the spec: see `LPP_DIGITAL_INPUT`. -/
def XLPP_INTEGER : Nat := 51

/-- Modelled from the spec: see `LPP_DIGITAL_INPUT`. -/
def XLPP_STRING : Nat := 52

/-- Modelled from the spec: see `LPP_DIGITAL_INPUT`. -/
def XLPP_BOOL_FALSE : Nat := 53

/-- Modelled from the spec: see `LPP_DIGITAL_INPUT`. -/
def XLPP_BOOL_TRUE : Nat := 54

/-- Modelled from the spec: see `LPP_DIGITAL_INPUT`. -/
def XLPP_BINARY : Nat := 57

/-- `XLPP::reset()` (xlpp.cpp lines 71–74). -/
def XLPP.reset (s : XLPP) : XLPP := ⟨s.size, s.buf, 0⟩

/-- `XLPP::getSize()` returns the cursor (xlpp.cpp lines 76–79). -/
def getSize (s : XLPP) : Nat := s.o

/-- `XLPP::getType()` consumes one byte (xlpp.cpp lines 93–96). -/
def getType (s : XLPP) : Nat × XLPP :=
  (s.buf s.o, ⟨s.size, s.buf, s.o + 1⟩)

/-- C float-to-integer conversion: truncation toward zero. -/
def cTrunc (q : ℚ) : Int := if 0 ≤ q then ⌊q⌋ else ⌈q⌉

/-- Instantiation `XLPP_(Temperature, LPP_TEMPERATURE, float, 10, int16_t)`,
add side (xlpp.cpp lines 52–67 and 108): write the tag byte, then
`int16_t v = value * 10` big-endian. -/
def addTemperature (s : XLPP) (value : ℚ) : XLPP :=
  WRITE_int16_t (wr s LPP_TEMPERATURE) (cTrunc (value * 10))

/-- Same instantiation, channel-qualified add (xlpp.cpp lines 53–57). -/
def addTemperatureCh (s : XLPP) (channel : Nat) (value : ℚ) : XLPP :=
  addTemperature (wr s channel) value

/-- Same instantiation, get side: `float(READ_int16_t) / 10`. -/
def getTemperature (s : XLPP) : ℚ × XLPP :=
  ((((READ_int16_t s).1 : ℚ) / 10), (READ_int16_t s).2)

/-- Instantiation `XLPP_(DigitalInput, LPP_DIGITAL_INPUT, uint8_t, 1,
uint8_t)`, add side (xlpp.cpp lines 52–67 and 102). -/
def addDigitalInput (s : XLPP) (value : Nat) : XLPP :=
  WRITE_uint8_t (wr s LPP_DIGITAL_INPUT) (value * 1)

/-- Channel-qualified `addDigitalInput` (xlpp.cpp lines 53–57). -/
def addDigitalInputCh (s : XLPP) (channel value : Nat) : XLPP :=
  addDigitalInput (wr s channel) value

/-- Instantiation `XLPP_(DigitalOutput, LPP_DIGITAL_INPUT, uint8_t, 1,
uint8_t)` (xlpp.cpp line 103): the source passes `LPP_DIGITAL_INPUT`,
not `LPP_DIGITAL_OUTPUT`, as the tag of `addDigitalOutput`. -/
def addDigitalOutput (s : XLPP) (value : Nat) : XLPP :=
  WRITE_uint8_t (wr s LPP_DIGITAL_INPUT) (value * 1)

/-- Channel-qualified `addDigitalOutput` (xlpp.cpp lines 53–57, 103). -/
def addDigitalOutputCh (s : XLPP) (channel value : Nat) : XLPP :=
  addDigitalOutput (wr s channel) value

/-- `XLPP::addBool(bool)` (xlpp.cpp lines 329–332). -/
def addBool (s : XLPP) (b : Bool) : XLPP :=
  wr s (if b then XLPP_BOOL_TRUE else XLPP_BOOL_FALSE)

/-- Effect of `strcpy((char*)buf + o, str)`: copy the bytes of `str` and a
terminating zero starting at the cursor WITHOUT advancing it.  `str` is the
list of the C string's bytes up to (excluding) its terminator, so
`str.length` is its `strlen` and its entries are nonzero bytes. -/
def strcpyAt (s : XLPP) (str : List Nat) : XLPP :=
  ⟨s.size,
    fun j =>
      if s.o ≤ j ∧ j < s.o + str.length + 1 then (str ++ [0]).getD (j - s.o) 0 % 256
      else s.buf j,
    s.o⟩

/-- `XLPP::addString(const char*)` (xlpp.cpp lines 294–299): tag byte,
`strcpy`, then `o += strlen(str)` — the cursor ends ON the terminator the
`strcpy` just wrote, not after it. -/
def addString (s : XLPP) (str : List Nat) : XLPP :=
  ⟨(strcpyAt (wr s XLPP_STRING) str).size,
    (strcpyAt (wr s XLPP_STRING) str).buf,
    (strcpyAt (wr s XLPP_STRING) str).o + str.length⟩

/-- `XLPP::addObjectKey(const char*)` (xlpp.cpp lines 352–356): `strcpy`
without a tag, then `o += strlen(key)`. -/
def addObjectKey (s : XLPP) (key : List Nat) : XLPP :=
  ⟨(strcpyAt s key).size, (strcpyAt s key).buf, (strcpyAt s key).o + key.length⟩

/-- Unsigned 64-bit view `uint64_t(i)` of an `int64_t` value. -/
def toUInt64 (i : Int) : Nat := (i % (2 ^ 64 : Int)).toNat

/-- Zigzag transform of `XLPP::addInteger` (xlpp.cpp lines 250–251):
`uint64_t ui = uint64_t(i) << 1; if (i < 0) ui = ~ui;`
(`~` on `uint64_t` is `2^64 - 1 - ·`). -/
def zigzag (i : Int) : Nat :=
  if i < 0 then 2 ^ 64 - 1 - (toUInt64 i <<< 1) % 2 ^ 64
  else (toUInt64 i <<< 1) % 2 ^ 64

/-- The varint emission loop shared verbatim by `XLPP::addInteger`
(xlpp.cpp lines 252–256) and `XLPP::addBinary` (lines 393–397):
`while (v >= 0x80) { WRITE_uint8_t(uint8_t(v) | 0x80); v >>= 7; }
WRITE_uint8_t(uint8_t(v));`.  Returned alongside the state is the loop
variable's final value, which `addBinary` goes on to use in place of the
original length. -/
def varintWrite (s : XLPP) (ui : Nat) : XLPP × Nat :=
  if h : 0x80 ≤ ui then varintWrite (WRITE_uint8_t s (ui % 256 ||| 0x80)) (ui >>> 7)
  else (WRITE_uint8_t s ui, ui)
termination_by ui
decreasing_by
  simp only [Nat.shiftRight_eq_div_pow]
  exact Nat.div_lt_self (by omega) (by norm_num)

/-- `XLPP::addInteger(int64_t)` (xlpp.cpp lines 247–257): tag byte, zigzag,
varint groups. -/
def addInteger (s : XLPP) (i : Int) : XLPP :=
  (varintWrite (wr s XLPP_INTEGER) (zigzag i)).1

/-- Un-zigzag step of `XLPP::getInteger` (xlpp.cpp lines 279–283):
`int64_t i = int64_t(ui >> 1); if (ui & 1) i = ~i;`
(`ui >> 1 < 2^63`, so the `int64_t` cast is the identity, and `~i = -i - 1`). -/
def unzigzag (ui : Nat) : Int :=
  if ui % 2 = 1 then -((ui >>> 1 : Nat) : Int) - 1 else ((ui >>> 1 : Nat) : Int)

/-- The decode loop of `XLPP::getInteger` (xlpp.cpp lines 259–284), entered
at iteration `i` with accumulator `ui` and shift variable `s7`.  The loop
starts at `i = 0` and increments `i` by one, so the source's `i == 10` exit
test is equivalently `10 ≤ i`; the `% 2 ^ 64` on the shifted contribution is
the `uint64_t` truncation. -/
def getIntegerGo (st : XLPP) (ui s7 i : Nat) : Int × XLPP :=
  if h : 10 ≤ i then (0, st)
  else
    if st.buf st.o < 0x80 then
      if i = 9 ∧ 1 < st.buf st.o then (0, ⟨st.size, st.buf, st.o + 1⟩)
      else
        (unzigzag (ui ||| (st.buf st.o <<< s7) % 2 ^ 64), ⟨st.size, st.buf, st.o + 1⟩)
    else
      getIntegerGo ⟨st.size, st.buf, st.o + 1⟩
        (ui ||| ((st.buf st.o &&& 0x7f) <<< s7) % 2 ^ 64) (s7 + 7) (i + 1)
termination_by 10 - i
decreasing_by
  omega

/-- `XLPP::getInteger()` (xlpp.cpp lines 259–284). -/
def getInteger (st : XLPP) : Int × XLPP := getIntegerGo st 0 0 0

/-- Effect of `memcpy(buf + o, data, n); o += n;` — copy `n` bytes of `data`
to the cursor and advance. -/
def memcpyIn (st : XLPP) (data : List Nat) (n : Nat) : XLPP :=
  ⟨st.size,
    fun j => if st.o ≤ j ∧ j < st.o + n then data.getD (j - st.o) 0 % 256 else st.buf j,
    st.o + n⟩

/-- `XLPP::addBinary(const void*, size_t)` (xlpp.cpp lines 389–400): tag
byte, then the varint loop over the length `s` — but the loop clobbers `s`
(the copy saved in the dead local `i` is never used again), so the
`memcpy(buf+o, data, s)` and `o += s` that follow use the varint loop's
final group value instead of the original length. -/
def addBinary (st : XLPP) (data : List Nat) (s : Nat) : XLPP :=
  memcpyIn (varintWrite (wr st XLPP_BINARY) s).1 data (varintWrite (wr st XLPP_BINARY) s).2

/-- The length-decoding loop of `XLPP::getBinary` (xlpp.cpp lines 402–424),
which — unlike its sibling in `getInteger` — shifts by the running
accumulator itself: `s |= uint64_t(b & 0x7f) << s; s += 7;`, and in the final
group `s |= uint64_t(b) << s;`.  Exit test as in `getIntegerGo`. -/
def getBinaryGo (st : XLPP) (s i : Nat) : Nat × XLPP :=
  if h : 10 ≤ i then (0, st)
  else
    if st.buf st.o < 0x80 then
      if i = 9 ∧ 1 < st.buf st.o then (0, ⟨st.size, st.buf, st.o + 1⟩)
      else
        (s ||| (st.buf st.o <<< s) % 2 ^ 64, ⟨st.size, st.buf, st.o + 1⟩)
    else
      getBinaryGo ⟨st.size, st.buf, st.o + 1⟩
        ((s ||| ((st.buf st.o &&& 0x7f) <<< s) % 2 ^ 64) + 7) (i + 1)
termination_by 10 - i
decreasing_by
  omega

/-- `XLPP::getBinary(void*)` (xlpp.cpp lines 402–424): decode the length
with the defective loop, then `memcpy` that many bytes out and advance the
cursor by it.  (The C function falls off its end without a `return` on this
path; the value the model pairs up is the length `memcpy` consumed.) -/
def getBinary (st : XLPP) : Nat × XLPP :=
  ((getBinaryGo st 0 0).1,
    ⟨(getBinaryGo st 0 0).2.size, (getBinaryGo st 0 0).2.buf,
      (getBinaryGo st 0 0).2.o + (getBinaryGo st 0 0).1⟩)

/-- Copy loop of the bounded `XLPP::getString(char*, size_t)`
(xlpp.cpp lines 309–311): `for (; *buf != 0 && n < limit; n++)
str[n] = buf[o++];` — note the guard dereferences `buf`, i.e. reads
`buf[0]`, not `buf[o]`.  The bytes stored into the caller's `str` are
accumulated in `out`. -/
def gsLoop (st : XLPP) (out : List Nat) (n limit : Nat) : List Nat × Nat × XLPP :=
  if h : st.buf 0 ≠ 0 ∧ n < limit then
    gsLoop ⟨st.size, st.buf, st.o + 1⟩ (out ++ [st.buf st.o]) (n + 1) limit
  else (out, n, st)
termination_by limit - n
decreasing_by
  omega

/-- Skip loop `while (buf[o++]);` of xlpp.cpp line 313: advance the cursor
one past the first zero byte at or after it.  The C loop runs until it
consumes a zero byte; the model carries an explicit iteration bound, ample
for every use below. -/
def skipToZero (st : XLPP) : Nat → XLPP
  | 0 => st
  | fuel + 1 =>
    if st.buf st.o = 0 then ⟨st.size, st.buf, st.o + 1⟩
    else skipToZero ⟨st.size, st.buf, st.o + 1⟩ fuel

/-- Bounded `XLPP::getString(char*, size_t)` (xlpp.cpp lines 307–319):
run the copy loop; if it stopped because `n == limit`, skip the remaining
source bytes through the terminator, otherwise write the terminator into
the caller's buffer (`str[n] = 0`) and advance once.  Returns the bytes
placed in `str`, the returned count `n`, and the final state. -/
def getStringN (st : XLPP) (limit fuel : Nat) : List Nat × Nat × XLPP :=
  if (gsLoop st [] 0 limit).2.1 = limit then
    ((gsLoop st [] 0 limit).1, (gsLoop st [] 0 limit).2.1,
      skipToZero (gsLoop st [] 0 limit).2.2 fuel)
  else
    ((gsLoop st [] 0 limit).1 ++ [0], (gsLoop st [] 0 limit).2.1,
      ⟨(gsLoop st [] 0 limit).2.2.size, (gsLoop st [] 0 limit).2.2.buf,
        (gsLoop st [] 0 limit).2.2.o + 1⟩)

/-- The byte sequence the loop `varintWrite` emits for `ui` (proof-side
companion of `varintWrite`). -/
def varintBytes (ui : Nat) : List Nat :=
  if h : 0x80 ≤ ui then (ui % 256 ||| 0x80) :: varintBytes (ui >>> 7)
  else [ui]
termination_by ui
decreasing_by
  simp only [Nat.shiftRight_eq_div_pow]
  exact Nat.div_lt_self (by omega) (by norm_num)

/-- Proof-side helper: write a list of bytes with `wr`, in order. -/
def writeList (s : XLPP) (l : List Nat) : XLPP := l.foldl wr s

/-- Concrete receive buffer for exercising `getBinary`: the two bytes
`0x80 0x01` (the well-formed varint encoding of 128) followed by zeros. -/
def c7buf : Nat → Nat := fun j => if j = 0 then 0x80 else if j = 1 then 1 else 0

/-- Concrete receive buffer for exercising the bounded `getString`: the
string tag at offset 0, then the two-byte string "hi" (`0x68 0x69`), its
terminator, and zeros. -/
def c8buf : Nat → Nat :=
  fun j => if j = 0 then XLPP_STRING else if j = 1 then 104 else if j = 2 then 105 else 0

theorem writeList_cons (s : XLPP) (a : Nat) (l : List Nat) :
    writeList s (a :: l) = writeList (wr s a) l := rfl

theorem wr_o (s : XLPP) (v : Nat) : (wr s v).o = s.o + 1 := rfl

theorem writeList_o (l : List Nat) : ∀ s : XLPP, (writeList s l).o = s.o + l.length := by
  induction l with
  | nil => intro s; rfl
  | cons a t ih =>
    intro s
    rw [writeList_cons, ih, wr_o, List.length_cons]
    omega

theorem writeList_size (l : List Nat) : ∀ s : XLPP, (writeList s l).size = s.size := by
  induction l with
  | nil => intro s; rfl
  | cons a t ih => intro s; rw [writeList_cons, ih]; rfl

theorem writeList_buf_lt (l : List Nat) :
    ∀ (s : XLPP) (j : Nat), j < s.o → (writeList s l).buf j = s.buf j := by
  induction l with
  | nil => intro s j _; rfl
  | cons a t ih =>
    intro s j hj
    rw [writeList_cons, ih (wr s a) j (by rw [wr_o]; omega)]
    simp only [wr]
    rw [if_neg (by omega)]

theorem writeList_buf_get (l : List Nat) :
    ∀ (s : XLPP) (k : Nat), k < l.length →
      (writeList s l).buf (s.o + k) = l.getD k 0 % 256 := by
  induction l with
  | nil => intro s k hk; simp at hk
  | cons a t ih =>
    intro s k hk
    match k with
    | 0 =>
      rw [writeList_cons, writeList_buf_lt t (wr s a) (s.o + 0) (by rw [wr_o]; omega)]
      simp [wr]
    | k + 1 =>
      rw [writeList_cons, show s.o + (k + 1) = (wr s a).o + k from by rw [wr_o]; omega,
        ih (wr s a) k (by simpa using hk)]
      simp

theorem varintBytes_big {ui : Nat} (h : 0x80 ≤ ui) :
    varintBytes ui = (ui % 256 ||| 0x80) :: varintBytes (ui >>> 7) := by
  rw [varintBytes]
  simp [h]

theorem varintBytes_small {ui : Nat} (h : ¬ 0x80 ≤ ui) : varintBytes ui = [ui] := by
  rw [varintBytes]
  simp [h]

set_option maxRecDepth 4096 in
theorem lor128 : ∀ x, x < 256 → x ||| 128 = x % 128 + 128 := by decide

set_option maxRecDepth 4096 in
theorem and127 : ∀ x, x < 256 → (x ||| 128) &&& 127 = x % 128 := by decide

theorem varintBytes_lt (u : Nat) : ∀ b ∈ varintBytes u, b < 256 := by
  induction u using Nat.strong_induction_on with
  | _ u ih =>
    by_cases h : 0x80 ≤ u
    · rw [varintBytes_big h]
      intro b hb
      rcases List.mem_cons.1 hb with hb | hb
      · subst hb
        rw [lor128 (u % 256) (Nat.mod_lt u (by norm_num))]
        have := Nat.mod_lt (u % 256) (show 0 < 128 by norm_num)
        omega
      · exact ih (u >>> 7)
          (by rw [Nat.shiftRight_eq_div_pow]; exact Nat.div_lt_self (by omega) (by norm_num))
          b hb
    · rw [varintBytes_small h]
      intro b hb
      simp at hb
      omega

theorem varintWrite_fst (u : Nat) :
    ∀ s : XLPP, (varintWrite s u).1 = writeList s (varintBytes u) := by
  induction u using Nat.strong_induction_on with
  | _ u ih =>
    intro s
    by_cases h : 0x80 ≤ u
    · rw [varintWrite, varintBytes_big h, writeList_cons, dif_pos h,
        ih (u >>> 7)
          (by rw [Nat.shiftRight_eq_div_pow]; exact Nat.div_lt_self (by omega) (by norm_num))]
      rfl
    · rw [varintWrite, varintBytes_small h, dif_neg h]
      rfl

theorem varint_split (u k : Nat) :
    ((u % 128) <<< k) ||| ((u >>> 7) <<< (k + 7)) = u <<< k := by
  apply Nat.eq_of_testBit_eq
  intro j
  simp only [Nat.testBit_lor, Nat.testBit_shiftLeft, Nat.testBit_shiftRight,
    show (128 : Nat) = 2 ^ 7 from by norm_num, Nat.testBit_mod_two_pow]
  rcases Nat.lt_or_ge j k with h | h
  · have h1 : ¬ k ≤ j := by omega
    have h2 : ¬ k + 7 ≤ j := by omega
    simp [h1, h2]
  · rcases Nat.lt_or_ge j (k + 7) with h2 | h2
    · have h3 : j - k < 7 := by omega
      have h4 : ¬ k + 7 ≤ j := by omega
      simp [h, h3, h4]
    · have h3 : ¬ j - k < 7 := by omega
      have h4 : k + 7 ≤ j := by omega
      have h5 : 7 + (j - (k + 7)) = j - k := by omega
      simp [h, h3, h4, h5]

theorem getIntegerGo_unfold (st : XLPP) (ui s7 i : Nat) :
    getIntegerGo st ui s7 i =
      if 10 ≤ i then (0, st)
      else
        if st.buf st.o < 0x80 then
          if i = 9 ∧ 1 < st.buf st.o then (0, ⟨st.size, st.buf, st.o + 1⟩)
          else
            (unzigzag (ui ||| (st.buf st.o <<< s7) % 2 ^ 64),
              ⟨st.size, st.buf, st.o + 1⟩)
        else
          getIntegerGo ⟨st.size, st.buf, st.o + 1⟩
            (ui ||| ((st.buf st.o &&& 0x7f) <<< s7) % 2 ^ 64) (s7 + 7) (i + 1) := by
  rw [getIntegerGo]; rfl

theorem getIntegerGo_decode (u : Nat) :
    ∀ (i : Nat) (st : XLPP) (acc : Nat), i ≤ 9 → u < 2 ^ (64 - 7 * i) →
      (∀ k, k < (varintBytes u).length → st.buf (st.o + k) = (varintBytes u).getD k 0) →
      getIntegerGo st acc (7 * i) i =
        (unzigzag (acc ||| u <<< (7 * i)), ⟨st.size, st.buf, st.o + (varintBytes u).length⟩) := by
  induction u using Nat.strong_induction_on with
  | _ u ih =>
    intro i st acc hi hu hbytes
    by_cases h : 0x80 ≤ u
    · -- continuation byte: the loop recurses
      have hi8 : i ≤ 8 := by
        by_contra hc
        have : i = 9 := by omega
        subst this
        have : (2 : Nat) ^ (64 - 7 * 9) = 2 := by norm_num
        omega
      have hb0 : st.buf st.o = u % 256 ||| 0x80 := by
        have := hbytes 0 (by rw [varintBytes_big h]; simp)
        rwa [Nat.add_zero, varintBytes_big h, List.getD_cons_zero] at this
      have hb0big : 0x80 ≤ st.buf st.o := by
        rw [hb0, lor128 (u % 256) (Nat.mod_lt u (by norm_num))]
        omega
      rw [getIntegerGo_unfold, if_neg (by omega), if_neg (by omega)]
      have hand : st.buf st.o &&& 0x7f = u % 128 := by
        rw [hb0, and127 (u % 256) (Nat.mod_lt u (by norm_num)),
          Nat.mod_mod_of_dvd u (by norm_num : (128 : Nat) ∣ 256)]
      have hmod : ((u % 128) <<< (7 * i)) % 2 ^ 64 = (u % 128) <<< (7 * i) := by
        apply Nat.mod_eq_of_lt
        rw [Nat.shiftLeft_eq]
        calc u % 128 * 2 ^ (7 * i) < 128 * 2 ^ (7 * i) :=
              mul_lt_mul_of_pos_right (Nat.mod_lt u (by norm_num))
                (pow_pos (by norm_num) _)
          _ = 2 ^ (7 + 7 * i) := by rw [pow_add]; norm_num
          _ ≤ 2 ^ 64 := Nat.pow_le_pow_right (by norm_num) (by omega)
      have hshift : u >>> 7 < 2 ^ (64 - 7 * (i + 1)) := by
        rw [Nat.shiftRight_eq_div_pow]
        rw [Nat.div_lt_iff_lt_mul (by norm_num : 0 < (2 : Nat) ^ 7)]
        calc u < 2 ^ (64 - 7 * i) := hu
          _ = 2 ^ (64 - 7 * (i + 1)) * 2 ^ 7 := by
              rw [← pow_add]
              congr 1
              omega
      have hrest : ∀ k, k < (varintBytes (u >>> 7)).length →
          (⟨st.size, st.buf, st.o + 1⟩ : XLPP).buf ((st.o + 1) + k) =
            (varintBytes (u >>> 7)).getD k 0 := by
        intro k hk
        have := hbytes (k + 1) (by rw [varintBytes_big h]; simpa using hk)
        rw [varintBytes_big h] at this
        simpa [Nat.add_assoc, Nat.add_comm 1 k] using this
      have hlt : u >>> 7 < u := by
        rw [Nat.shiftRight_eq_div_pow]
        exact Nat.div_lt_self (by omega) (by norm_num)
      have := ih (u >>> 7) hlt (i + 1) ⟨st.size, st.buf, st.o + 1⟩
        (acc ||| ((u % 128) <<< (7 * i))) (by omega) hshift hrest
      rw [hand, hmod, show 7 * i + 7 = 7 * (i + 1) from by ring, this]
      rw [Nat.lor_assoc, show 7 * (i + 1) = 7 * i + 7 from by ring, varint_split]
      rw [varintBytes_big h]
      simp only [List.length_cons]
      rw [show st.o + 1 + (varintBytes (u >>> 7)).length =
        st.o + ((varintBytes (u >>> 7)).length + 1) from by omega]
    · -- final byte: the loop stops here
      have hu128 : u < 128 := by omega
      have hb0 : st.buf st.o = u := by
        have := hbytes 0 (by rw [varintBytes_small h]; simp)
        rwa [Nat.add_zero, varintBytes_small h, List.getD_cons_zero] at this
      have hnot9 : ¬ (i = 9 ∧ 1 < st.buf st.o) := by
        rintro ⟨h9, hgt⟩
        subst h9
        have : (2 : Nat) ^ (64 - 7 * 9) = 2 := by norm_num
        omega
      have hmod : (u <<< (7 * i)) % 2 ^ 64 = u <<< (7 * i) := by
        apply Nat.mod_eq_of_lt
        rw [Nat.shiftLeft_eq]
        calc u * 2 ^ (7 * i) < 2 ^ (64 - 7 * i) * 2 ^ (7 * i) :=
              mul_lt_mul_of_pos_right hu (pow_pos (by norm_num) _)
          _ = 2 ^ (64 - 7 * i + 7 * i) := by rw [pow_add]
          _ ≤ 2 ^ 64 := Nat.pow_le_pow_right (by norm_num) (by omega)
      rw [getIntegerGo_unfold, if_neg (by omega), if_pos (by omega), if_neg hnot9,
        hb0, hmod, varintBytes_small h]
      rfl

theorem zigzag_lt (i : Int) : zigzag i < 2 ^ 64 := by
  unfold zigzag
  split
  · have := Nat.mod_lt ((toUInt64 i) <<< 1) (show 0 < 2 ^ 64 from by norm_num)
    omega
  · exact Nat.mod_lt _ (by norm_num)

theorem unzigzag_zigzag (i : Int) (h1 : -(2 ^ 63) ≤ i) (h2 : i < 2 ^ 63) :
    unzigzag (zigzag i) = i := by
  unfold unzigzag zigzag toUInt64
  simp only [Nat.shiftLeft_eq, Nat.shiftRight_eq_div_pow, pow_one]
  split_ifs <;> omega

theorem addInteger_eq (s : XLPP) (i : Int) :
    addInteger s i = writeList (wr s XLPP_INTEGER) (varintBytes (zigzag i)) := by
  unfold addInteger
  rw [varintWrite_fst]

theorem varintBytes_getD_lt (u k : Nat) (hk : k < (varintBytes u).length) :
    (varintBytes u).getD k 0 < 256 := by
  rw [List.getD_eq_getElem _ _ hk]
  exact varintBytes_lt u _ (List.getElem_mem hk)

/-- C4. For every 64-bit signed integer `i`, `addInteger i` followed (after
rewinding the cursor past the type tag) by `getInteger` returns `i` again,
and the decode consumes exactly the bytes the encode produced.  The encoding
is the zigzag transform emitted as base-128 groups, least-significant 7 bits
first, high bit set on every byte but the last — exactly the `addInteger` and
`getInteger` loops embedded above from xlpp.cpp lines 247–284. -/
theorem C4_addInteger_getInteger_roundtrip (s : XLPP) (i : Int)
    (h1 : -(2 ^ 63) ≤ i) (h2 : i < 2 ^ 63) :
    (getInteger ⟨(addInteger s i).size, (addInteger s i).buf, s.o + 1⟩).1 = i ∧
      (getInteger ⟨(addInteger s i).size, (addInteger s i).buf, s.o + 1⟩).2.o =
        (addInteger s i).o := by
  have hbytes : ∀ k, k < (varintBytes (zigzag i)).length →
      (⟨(addInteger s i).size, (addInteger s i).buf, s.o + 1⟩ : XLPP).buf
          ((s.o + 1) + k) = (varintBytes (zigzag i)).getD k 0 := by
    intro k hk
    show (addInteger s i).buf ((s.o + 1) + k) = _
    rw [addInteger_eq,
      show s.o + 1 + k = (wr s XLPP_INTEGER).o + k from by rw [wr_o],
      writeList_buf_get _ _ _ hk,
      Nat.mod_eq_of_lt (varintBytes_getD_lt _ _ hk)]
  have hdec := getIntegerGo_decode (zigzag i) 0
    ⟨(addInteger s i).size, (addInteger s i).buf, s.o + 1⟩ 0
    (by norm_num) (by simpa using zigzag_lt i) hbytes
  have hget : getInteger ⟨(addInteger s i).size, (addInteger s i).buf, s.o + 1⟩ =
      (unzigzag (0 ||| zigzag i <<< (7 * 0)),
        ⟨(addInteger s i).size, (addInteger s i).buf,
          (s.o + 1) + (varintBytes (zigzag i)).length⟩) := by
    unfold getInteger
    rw [show (0 : Nat) = 7 * 0 from rfl] at hdec
    exact hdec
  rw [hget]
  constructor
  · simp only [Nat.mul_zero, Nat.shiftLeft_zero, Nat.zero_or]
    exact unzigzag_zigzag i h1 h2
  · rw [addInteger_eq, writeList_o, wr_o]

/-- Witness for C4 at the concrete input `i = -1` on a fresh 16-byte codec. -/
theorem C4_witness :
    (getInteger ⟨(addInteger (XLPP.construct 16) (-1)).size,
        (addInteger (XLPP.construct 16) (-1)).buf, (XLPP.construct 16).o + 1⟩).1 = -1 ∧
      (getInteger ⟨(addInteger (XLPP.construct 16) (-1)).size,
          (addInteger (XLPP.construct 16) (-1)).buf, (XLPP.construct 16).o + 1⟩).2.o =
        (addInteger (XLPP.construct 16) (-1)).o :=
  C4_addInteger_getInteger_roundtrip (XLPP.construct 16) (-1) (by norm_num) (by norm_num)

theorem getIntegerGo_allHigh (n : Nat) :
    ∀ (st : XLPP) (acc s7 i : Nat), i + n = 10 →
      (∀ j, j < n → 0x80 ≤ st.buf (st.o + j)) →
      getIntegerGo st acc s7 i = (0, ⟨st.size, st.buf, st.o + n⟩) := by
  induction n with
  | zero =>
    intro st acc s7 i hi _
    rw [getIntegerGo_unfold, if_pos (by omega)]
    rfl
  | succ n ih =>
    intro st acc s7 i hi hb
    have hb0 : 0x80 ≤ st.buf st.o := by
      have := hb 0 (by omega)
      simpa using this
    rw [getIntegerGo_unfold, if_neg (by omega), if_neg (by omega)]
    rw [ih ⟨st.size, st.buf, st.o + 1⟩ _ _ (i + 1) (by omega)
      (fun j hj => by
        have := hb (j + 1) (by omega)
        simpa [Nat.add_assoc, Nat.add_comm 1 j] using this)]
    simp only []
    rw [show st.o + 1 + n = st.o + (n + 1) from by omega]

theorem getIntegerGo_tenthBig (n : Nat) :
    ∀ (st : XLPP) (acc s7 i : Nat), i + n = 9 →
      (∀ j, j < n → 0x80 ≤ st.buf (st.o + j)) →
      st.buf (st.o + n) < 0x80 → 1 < st.buf (st.o + n) →
      (getIntegerGo st acc s7 i).1 = 0 := by
  induction n with
  | zero =>
    intro st acc s7 i hi _ hlo hgt
    rw [Nat.add_zero] at hlo hgt
    rw [getIntegerGo_unfold, if_neg (by omega), if_pos hlo,
      if_pos (by constructor <;> omega)]
  | succ n ih =>
    intro st acc s7 i hi hb hlo hgt
    have hb0 : 0x80 ≤ st.buf st.o := by
      have := hb 0 (by omega)
      simpa using this
    rw [getIntegerGo_unfold, if_neg (by omega), if_neg (by omega)]
    exact ih ⟨st.size, st.buf, st.o + 1⟩ _ _ (i + 1) (by omega)
      (fun j hj => by
        have := hb (j + 1) (by omega)
        simpa [Nat.add_assoc, Nat.add_comm 1 j] using this)
      (by simpa [Nat.add_assoc, Nat.add_comm 1 n] using hlo)
      (by simpa [Nat.add_assoc, Nat.add_comm 1 n] using hgt)

theorem getIntegerGo_stops (n : Nat) :
    ∀ (st : XLPP) (acc s7 i : Nat), i + n ≤ 9 →
      (∀ j, j < n → 0x80 ≤ st.buf (st.o + j)) →
      st.buf (st.o + n) < 0x80 →
      (getIntegerGo st acc s7 i).2.o = st.o + n + 1 := by
  induction n with
  | zero =>
    intro st acc s7 i hi _ hlo
    rw [Nat.add_zero] at hlo
    rw [getIntegerGo_unfold, if_neg (by omega), if_pos hlo]
    split <;> rfl
  | succ n ih =>
    intro st acc s7 i hi hb hlo
    have hb0 : 0x80 ≤ st.buf st.o := by
      have := hb 0 (by omega)
      simpa using this
    rw [getIntegerGo_unfold, if_neg (by omega), if_neg (by omega)]
    rw [ih ⟨st.size, st.buf, st.o + 1⟩ _ _ (i + 1) (by omega)
      (fun j hj => by
        have := hb (j + 1) (by omega)
        simpa [Nat.add_assoc, Nat.add_comm 1 j] using this)
      (by simpa [Nat.add_assoc, Nat.add_comm 1 n] using hlo)]
    show st.o + 1 + n + 1 = st.o + (n + 1) + 1
    omega

/-- C5. Overflow and stop behaviour of `getInteger` (xlpp.cpp lines
259–284): (1) if the first 10 bytes at the cursor all have the high bit set
(an 11th byte would be needed), the decode returns 0 after consuming those
10 bytes; (2) if the first 9 bytes have the high bit set and the 10th has it
clear but holds a value greater than 1, the decode returns 0; (3) for a
varint whose first clear-high-bit byte is at offset `k ≤ 9`, the decode
stops exactly there, consuming `k + 1` bytes. -/
theorem C5_getInteger_overflow_and_stop :
    (∀ st : XLPP,
        (∀ j, j < 10 → 0x80 ≤ st.buf (st.o + j) ∧ st.buf (st.o + j) < 256) →
        (getInteger st).1 = 0 ∧ (getInteger st).2.o = st.o + 10) ∧
      (∀ st : XLPP,
        (∀ j, j < 9 → 0x80 ≤ st.buf (st.o + j) ∧ st.buf (st.o + j) < 256) →
        st.buf (st.o + 9) < 0x80 → 1 < st.buf (st.o + 9) →
        (getInteger st).1 = 0) ∧
      (∀ (st : XLPP) (k : Nat), k ≤ 9 →
        (∀ j, j < k → 0x80 ≤ st.buf (st.o + j) ∧ st.buf (st.o + j) < 256) →
        st.buf (st.o + k) < 0x80 →
        (getInteger st).2.o = st.o + k + 1) := by
  refine ⟨fun st hb => ?_, fun st hb hlo hgt => ?_, fun st k hk hb hlo => ?_⟩
  · rw [getInteger, getIntegerGo_allHigh 10 st 0 0 0 (by omega)
      (fun j hj => (hb j hj).1)]
    exact ⟨rfl, rfl⟩
  · exact getIntegerGo_tenthBig 9 st 0 0 0 (by omega) (fun j hj => (hb j hj).1) hlo hgt
  · exact getIntegerGo_stops k st 0 0 0 (by omega) (fun j hj => (hb j hj).1) hlo

/-- Witness for C5: the three scenarios at concrete buffers — ten
continuation bytes; nine continuation bytes and a final byte 2; a two-byte
varint `0x81 0x01` that stops at offset 1. -/
theorem C5_witness :
    ((getInteger ⟨16, fun j => if j < 10 then 0x80 else 0, 0⟩).1 = 0 ∧
        (getInteger ⟨16, fun j => if j < 10 then 0x80 else 0, 0⟩).2.o = 0 + 10) ∧
      ((getInteger ⟨16, fun j => if j < 9 then 0x80 else 2, 0⟩).1 = 0) ∧
      ((getInteger ⟨16, fun j => if j = 0 then 0x81 else 1, 0⟩).2.o = 0 + 1 + 1) :=
  ⟨C5_getInteger_overflow_and_stop.1 ⟨16, fun j => if j < 10 then 0x80 else 0, 0⟩
      (by decide),
    C5_getInteger_overflow_and_stop.2.1 ⟨16, fun j => if j < 9 then 0x80 else 2, 0⟩
      (by decide) (by decide) (by decide),
    C5_getInteger_overflow_and_stop.2.2 ⟨16, fun j => if j = 0 then 0x81 else 1, 0⟩ 1
      (by decide) (by decide) (by decide)⟩

/-- C10. For every state, value and channel, `addDigitalOutput` writes
exactly the same bytes as `addDigitalInput` — the source instantiates both
with `LPP_DIGITAL_INPUT` (xlpp.cpp lines 102–103) — so digital-input and
digital-output records are indistinguishable on the wire; the tag byte both
emit is the digital-input tag. -/
theorem C10_digitalOutput_same_wire (s : XLPP) (v c : Nat) :
    addDigitalOutput s v = addDigitalInput s v ∧
      addDigitalOutputCh s c v = addDigitalInputCh s c v ∧
      (addDigitalOutput s v).buf s.o = LPP_DIGITAL_INPUT := by
  refine ⟨rfl, rfl, ?_⟩
  simp [addDigitalOutput, WRITE_uint8_t, wr, LPP_DIGITAL_INPUT]

/-- C1 (code bug).  The primitive multi-byte read does consume `w` bytes but
does not return the big-endian concatenation: for the two bytes `0x01 0x02`
just written by `WRITE_uint16_t 0x0102`, the source's `READ_uint16_t`
computes `buf[0] << (8 + buf[1]) = 1 << 10 = 1024` — the `+` binds tighter
than `<<` in `uint16_t(_READ) << 8 + uint16_t(_READ)` — while the spec's
big-endian contract (`specRead_uint16`) yields `0x0102 = 258`. -/
theorem C1_read16_not_bigEndian :
    (READ_uint16_t ⟨(WRITE_uint16_t (XLPP.construct 8) 0x0102).size,
        (WRITE_uint16_t (XLPP.construct 8) 0x0102).buf, 0⟩).1 = 1024 ∧
      (READ_uint16_t ⟨(WRITE_uint16_t (XLPP.construct 8) 0x0102).size,
          (WRITE_uint16_t (XLPP.construct 8) 0x0102).buf, 0⟩).2.o = 2 ∧
      (specRead_uint16 ⟨(WRITE_uint16_t (XLPP.construct 8) 0x0102).size,
          (WRITE_uint16_t (XLPP.construct 8) 0x0102).buf, 0⟩).1 = 258 ∧
      (1024 : Nat) ≠ 258 := by
  refine ⟨?_, rfl, ?_, by norm_num⟩ <;> decide

/-- C3 (code bug).  After `construct(4)` the first `addTemperature` fits
(cursor 3 ≤ capacity 4), but the second advances the cursor to 6 > 4,
writing bytes at offsets 4 and 5 — past the malloc'd region — with no
`CapacityExceeded` failure anywhere in the source: `_WRITE` (xlpp.cpp
line 21) is an unchecked `buf[o++] = v`. -/
theorem C3_no_capacity_guard :
    (XLPP.construct 4).size = 4 ∧
      getSize (addTemperature (XLPP.construct 4) 27) = 3 ∧
      getSize (addTemperature (addTemperature (XLPP.construct 4) 27) 27) = 6 ∧
      (addTemperature (addTemperature (XLPP.construct 4) 27) 27).size <
        getSize (addTemperature (addTemperature (XLPP.construct 4) 27) 27) := by
  refine ⟨rfl, ?_, ?_, ?_⟩ <;> decide

/-- C9 (code bug).  `addString "hi"` grows `getSize` by `1 + strlen = 3`,
not `1 + strlen + 1 = 4`: the `strcpy` writes the terminator at offset 3 but
`o += strlen(str)` (xlpp.cpp line 298) stops the cursor ON it, so the next
add — here `addBool true` — overwrites the terminator with its own tag byte.
`addObjectKey "k"` likewise grows the size by `strlen = 1`, not 2. -/
theorem C9_string_terminator_overwritten :
    getSize (addString (XLPP.construct 16) [104, 105]) = 3 ∧
      (addString (XLPP.construct 16) [104, 105]).buf 3 = 0 ∧
      (addBool (addString (XLPP.construct 16) [104, 105]) true).buf 3 =
        XLPP_BOOL_TRUE ∧
      XLPP_BOOL_TRUE ≠ 0 ∧
      getSize (addObjectKey (XLPP.construct 16) [107]) = 1 := by
  refine ⟨?_, ?_, ?_, ?_, ?_⟩ <;> decide


/-- C2 (code bug).  The Temperature round-trip fails: `addTemperature 27`
writes tag, `0x01`, `0x0E` (270 big-endian), but `getTemperature` goes
through the defective `READ_uint16_t` (xlpp.cpp line 43), computing
`1 << (8 + 14) = 2^22`, which truncates to 0 as an `int16_t`; the decode
returns 0.0, which is 27 away from 27.0 — far beyond the 0.1 resolution the
claim allows.  (`27 * 10` and `0 / 10` are exact in `float`, so the exact
`ℚ` model coincides with the C computation here.) -/
theorem C2_temperature_roundtrip_fails :
    (getTemperature
        (getType (XLPP.reset (addTemperature (XLPP.construct 8) 27))).2).1 = 0 ∧
      ¬ |(getTemperature
            (getType (XLPP.reset (addTemperature (XLPP.construct 8) 27))).2).1 - 27| ≤
          1 / 10 := by
  have htr : cTrunc ((27 : ℚ) * 10) = 270 := by
    rw [cTrunc, if_pos (by norm_num)]
    norm_num
  have hstate : addTemperature (XLPP.construct 8) 27 =
      WRITE_uint16_t (wr (XLPP.construct 8) LPP_TEMPERATURE) 270 := by
    rw [addTemperature, htr, WRITE_int16_t]
    norm_num
    rfl
  have hval : (READ_int16_t
      (getType (XLPP.reset (addTemperature (XLPP.construct 8) 27))).2).1 = 0 := by
    rw [hstate]
    decide
  constructor
  · simp only [getTemperature, hval]
    norm_num
  · simp only [getTemperature, hval]
    norm_num

theorem varintWrite_big {ui : Nat} (h : 0x80 ≤ ui) (s : XLPP) :
    varintWrite s ui = varintWrite (WRITE_uint8_t s (ui % 256 ||| 0x80)) (ui >>> 7) := by
  rw [varintWrite]
  simp [h]

theorem varintWrite_small {ui : Nat} (h : ¬ 0x80 ≤ ui) (s : XLPP) :
    varintWrite s ui = (WRITE_uint8_t s ui, ui) := by
  rw [varintWrite]
  simp [h]

/-- C6 (code bug).  `addBinary(data, 128)` writes the tag and the two varint
groups `0x80 0x01` of the length, but the loop has clobbered `s` (the saved
copy `i` of xlpp.cpp line 392 is never used), so the `memcpy`/`o += s` copy
only `s = 1` byte of payload: the final size is 4, not the
`1 + 2 + 128 = 131` bytes of the claimed record, and offset 4 still holds
the untouched initial byte rather than the second payload byte. -/
theorem C6_addBinary_uses_clobbered_length :
    getSize (addBinary (XLPP.construct 200) (List.replicate 128 7) 128) = 4 ∧
      (4 : Nat) ≠ 1 + 2 + 128 ∧
      (addBinary (XLPP.construct 200) (List.replicate 128 7) 128).buf 3 = 7 ∧
      (addBinary (XLPP.construct 200) (List.replicate 128 7) 128).buf 4 = 0 := by
  have hv : varintWrite (wr (XLPP.construct 200) XLPP_BINARY) 128 =
      (wr (wr (wr (XLPP.construct 200) XLPP_BINARY) (128 % 256 ||| 0x80)) 1, 1) := by
    rw [varintWrite_big (by decide), varintWrite_small (by decide)]
    rfl
  simp only [addBinary, hv]
  refine ⟨?_, by norm_num, ?_, ?_⟩ <;> decide

theorem getBinaryGo_unfold (st : XLPP) (s i : Nat) :
    getBinaryGo st s i =
      if 10 ≤ i then (0, st)
      else
        if st.buf st.o < 0x80 then
          if i = 9 ∧ 1 < st.buf st.o then (0, ⟨st.size, st.buf, st.o + 1⟩)
          else (s ||| (st.buf st.o <<< s) % 2 ^ 64, ⟨st.size, st.buf, st.o + 1⟩)
        else
          getBinaryGo ⟨st.size, st.buf, st.o + 1⟩
            ((s ||| ((st.buf st.o &&& 0x7f) <<< s) % 2 ^ 64) + 7) (i + 1) := by
  rw [getBinaryGo]
  rfl

/-- C7 (code bug).  Decoding the valid varint length prefix `0x80 0x01`
(the encoding of 128), `getBinary`'s loop shifts by the running accumulator
instead of a per-byte shift counter (`s |= uint64_t(b&0x7f) << s; s += 7;`,
xlpp.cpp lines 415–419): the first byte contributes 0 and sets `s = 7`, the
second contributes `1 << 7`, giving `7 ||| 128 = 135`, and the cursor then
advances over 135 payload bytes instead of the 128 the claim's
byte-index-driven contract requires. -/
theorem C7_getBinary_wrong_shift :
    (getBinary ⟨16, c7buf, 0⟩).1 = 135 ∧
      (135 : Nat) ≠ 128 ∧
      (getBinary ⟨16, c7buf, 0⟩).2.o = 137 ∧
      (137 : Nat) ≠ 2 + 128 := by
  have h1 : getBinaryGo ⟨16, c7buf, 0⟩ 0 0 =
      getBinaryGo ⟨16, c7buf, 0 + 1⟩
        ((0 ||| ((c7buf 0 &&& 0x7f) <<< 0) % 2 ^ 64) + 7) (0 + 1) := by
    rw [getBinaryGo_unfold, if_neg (by decide), if_neg (by decide)]
  have hE : (0 ||| ((c7buf 0 &&& 0x7f) <<< 0) % 2 ^ 64) + 7 = 7 := by decide
  rw [hE] at h1
  have h2 : getBinaryGo ⟨16, c7buf, 0 + 1⟩ 7 (0 + 1) = (135, ⟨16, c7buf, 2⟩) := by
    rw [getBinaryGo_unfold, if_neg (by decide), if_pos (by decide), if_neg (by decide)]
    rfl
  have h3 := h1.trans h2
  refine ⟨?_, by norm_num, ?_, by norm_num⟩
  · simp only [getBinary, h3]
  · simp only [getBinary, h3]

theorem gsLoop_unfold (st : XLPP) (out : List Nat) (n limit : Nat) :
    gsLoop st out n limit =
      if st.buf 0 ≠ 0 ∧ n < limit then
        gsLoop ⟨st.size, st.buf, st.o + 1⟩ (out ++ [st.buf st.o]) (n + 1) limit
      else (out, n, st) := by
  rw [gsLoop]
  rfl

/-- C8 (code bug).  The bounded decode's loop guard tests `*buf` — the byte
at offset 0, here the string tag — instead of `buf[o]` (xlpp.cpp line 310),
so it never stops at the string's terminator: decoding the 2-byte string
"hi" with limit 5 copies 5 bytes into the caller's buffer (`hi`, the
terminator, and two bytes beyond it), returns 5 instead of `min(5, 2) = 2`,
and leaves the cursor at 7 — the skip loop then hunted for the next zero —
instead of just past the terminator at 4. -/
theorem C8_getString_bounded_overruns :
    (getStringN ⟨32, c8buf, 1⟩ 5 10).2.1 = 5 ∧
      (5 : Nat) ≠ 2 ∧
      (getStringN ⟨32, c8buf, 1⟩ 5 10).2.2.o = 7 ∧
      (7 : Nat) ≠ 4 ∧
      (getStringN ⟨32, c8buf, 1⟩ 5 10).1 = [104, 105, 0, 0, 0] := by
  have h : gsLoop ⟨32, c8buf, 1⟩ [] 0 5 = ([104, 105, 0, 0, 0], 5, ⟨32, c8buf, 6⟩) := by
    rw [gsLoop_unfold, if_pos (by decide), gsLoop_unfold, if_pos (by decide),
      gsLoop_unfold, if_pos (by decide), gsLoop_unfold, if_pos (by decide),
      gsLoop_unfold, if_pos (by decide), gsLoop_unfold, if_neg (by decide)]
    rfl
  refine ⟨?_, by norm_num, ?_, by norm_num, ?_⟩ <;> simp only [getStringN, h] <;> decide
